import Mathlib

/-!
Verification of the image-listing command of src/api/client/images.go
(function CmdImages): the reference reconciliation of each image record's
repo-tag and repo-digest strings into (repository, tag, digest) triples,
and the rendering of those triples as output rows through a tabwriter.
-/

namespace DockerImages

/-- An image record as consumed by CmdImages (the fields of the API type
that lines 71-117 of src/api/client/images.go read). -/
structure Image where
  ID : String
  RepoTags : List String
  RepoDigests : List String
  Created : Int
  Size : Int
deriving DecidableEq

/-- The Go standard-library predicate strings.HasPrefix(s, p), modelled
on the character sequence of the strings. -/
def hasPrefixStr (p s : String) : Bool :=
  p.data.isPrefixOf s.data

/-- Modelled from the spec: the external reference-parsing component
yields a named reference that is polymorphic over two capabilities,
Tagged (exposes a tag) and Digested (exposes a digest); it is never
both.  A reference that is neither is a bare repository name. -/
inductive RefKind where
  | bare : RefKind
  | tagged : String → RefKind
  | digested : String → RefKind
deriving DecidableEq

/-- Modelled from the spec: the result of the external reference-parsing
capability, a repository name together with its capability. -/
structure NamedRef where
  name : String
  kind : RefKind
deriving DecidableEq

/-- One normalized (repository, tag, digest) row, the values printed by
lines 89-106 of src/api/client/images.go. -/
structure ReferenceTriple where
  repo : String
  tag : String
  digest : String
deriving DecidableEq

/-- The all-defaulted triple: every field is the none-sentinel display
value, as initialised at lines 89-91. -/
def noneTriple : ReferenceTriple :=
  { repo := "<none>", tag := "<none>", digest := "<none>" }

/-- Lines 88-106 of src/api/client/images.go: default all three fields
to the none sentinel; if the string does not start with the sentinel,
run the external parser (propagating its error), take the repository
name, and fill in the tag or the digest according to the capability of
the parsed reference. -/
def resolveRef (parse : String → Except String NamedRef)
    (repoAndRef : String) : Except String ReferenceTriple :=
  let repo := "<none>"
  let tag := "<none>"
  let digest := "<none>"
  if ¬ hasPrefixStr "<none>" repoAndRef then
    match parse repoAndRef with
    | Except.error e => Except.error e
    | Except.ok ref =>
      let repo := ref.name
      match ref.kind with
      | RefKind.digested d => Except.ok { repo := repo, tag := tag, digest := d }
      | RefKind.tagged t => Except.ok { repo := repo, tag := t, digest := digest }
      | RefKind.bare => Except.ok { repo := repo, tag := tag, digest := digest }
  else
    Except.ok { repo := repo, tag := tag, digest := digest }

/-- Lines 77-86 of src/api/client/images.go: the dangling collapse (if
the tag list is exactly the singleton none-tag sentinel and the digest
list exactly the singleton none-digest sentinel, drop the digest list)
followed by the concatenation of the tag list and the digest list. -/
def reconcile (image : Image) : List String :=
  let repoTags := image.RepoTags
  let repoDigests := image.RepoDigests
  let repoDigests :=
    if repoTags.length == 1 && repoTags.getD 0 "" == "<none>:<none>"
        && repoDigests.length == 1 && repoDigests.getD 0 "" == "<none>@<none>" then
      []
    else repoDigests
  repoTags ++ repoDigests

/-- The loop of lines 87-106 viewed at the triple level: resolve each
combined reference string in order, stopping at the first parse error
exactly as the early return at line 96 does. -/
def resolveAll (parse : String → Except String NamedRef) :
    List String → Except String (List ReferenceTriple)
  | [] => Except.ok []
  | s :: rest =>
    match resolveRef parse s with
    | Except.error e => Except.error e
    | Except.ok t =>
      match resolveAll parse rest with
      | Except.error e => Except.error e
      | Except.ok ts => Except.ok (t :: ts)

/-- The ordered sequence of triples the reconciler emits for one image
record (or the first parse error). -/
def recordTriples (parse : String → Except String NamedRef)
    (image : Image) : Except String (List ReferenceTriple) :=
  resolveAll parse (reconcile image)

/-- True when the line contains a tabwriter cell separator (horizontal
or vertical tab), so that it consists of more than one cell. -/
def hasCellSep (s : String) : Bool :=
  s.data.any (fun c => c == Char.ofNat 9 || c == Char.ofNat 11)

/-- The state of the text/tabwriter writer wrapped around the
user-visible output stream at line 62: the lines still buffered inside
the writer, and the lines already flushed to the underlying stream. -/
structure TW where
  buf : List String
  out : List String
deriving DecidableEq

/-- Writing one line to the tabwriter.  text/tabwriter buffers its
input; however, when a terminated line consists of a single cell (no
tab inside), it cannot influence the column layout of later lines, so
the writer flushes everything buffered (Go text/tabwriter, Write). -/
def TW.writeLine (w : TW) (line : String) : TW :=
  if hasCellSep line then { buf := w.buf ++ [line], out := w.out }
  else { buf := [], out := w.out ++ w.buf ++ [line] }

/-- Flush of the tabwriter (line 121): every buffered line is moved to
the underlying user-visible stream. -/
def TW.flush (w : TW) : TW :=
  { buf := [], out := w.out ++ w.buf }

/-- All lines written so far, in write order: the flushed ones followed
by the still-buffered ones. -/
def TW.lines (w : TW) : List String :=
  w.out ++ w.buf

/-- The external formatting collaborators used by lines 110-112: the
captured render time, units.HumanDuration and units.HumanSize. -/
structure Fmt where
  now : Int
  humanDuration : Int → String
  humanSize : Int → String

/-- Modelled from the spec: stringid.TruncateID, the canonical
fixed-length short form of an image id (a 12-character prefix). -/
def truncateID (i : String) : String :=
  ⟨i.data.take 12⟩

/-- Lines 72-75: the id as displayed, truncated unless noTrunc. -/
def displayID (noTrunc : Bool) (i : String) : String :=
  if ¬ noTrunc then truncateID i else i

/-- Lines 108-116: the single output line for one triple: six
tab-separated fields with digests, five without, or the bare id when
quiet. -/
def renderLine (fmt : Fmt) (quiet showDigests : Bool) (ID : String)
    (created size : Int) (t : ReferenceTriple) : String :=
  if ¬ quiet then
    if showDigests then
      t.repo ++ "\t" ++ t.tag ++ "\t" ++ t.digest ++ "\t" ++ ID ++ "\t"
        ++ fmt.humanDuration (fmt.now - created) ++ " ago\t" ++ fmt.humanSize size
    else
      t.repo ++ "\t" ++ t.tag ++ "\t" ++ ID ++ "\t"
        ++ fmt.humanDuration (fmt.now - created) ++ " ago\t" ++ fmt.humanSize size
  else
    ID

/-- The inner loop of lines 87-117: resolve each reference string and
write its rendered line, returning early with the parse error. -/
def processRefs (fmt : Fmt) (parse : String → Except String NamedRef)
    (quiet showDigests : Bool) (ID : String) (created size : Int) :
    TW → List String → TW × Option String
  | w, [] => (w, none)
  | w, s :: rest =>
    match resolveRef parse s with
    | Except.error e => (w, some e)
    | Except.ok t =>
      processRefs fmt parse quiet showDigests ID created size
        (w.writeLine (renderLine fmt quiet showDigests ID created size t)) rest

/-- The body of the outer loop of lines 71-118 for one image record. -/
def processImage (fmt : Fmt) (parse : String → Except String NamedRef)
    (quiet noTrunc showDigests : Bool) (w : TW) (image : Image) :
    TW × Option String :=
  processRefs fmt parse quiet showDigests (displayID noTrunc image.ID)
    image.Created image.Size w (reconcile image)

/-- The outer loop of lines 71-118, returning early with the first
parse error. -/
def runImages (fmt : Fmt) (parse : String → Except String NamedRef)
    (quiet noTrunc showDigests : Bool) :
    TW → List Image → TW × Option String
  | w, [] => (w, none)
  | w, image :: rest =>
    match processImage fmt parse quiet noTrunc showDigests w image with
    | (w2, none) => runImages fmt parse quiet noTrunc showDigests w2 rest
    | (w2, some e) => (w2, some e)

/-- Lines 63-68: the header line written when not quiet. -/
def headerLine (showDigests : Bool) : String :=
  if showDigests then "REPOSITORY\tTAG\tDIGEST\tIMAGE ID\tCREATED\tSIZE"
  else "REPOSITORY\tTAG\tIMAGE ID\tCREATED\tSIZE"

/-- Lines 62-123 of src/api/client/images.go, from the point where the
image records have been fetched: write the header unless quiet, process
every record, and flush the tabwriter at the end unless quiet; a parse
error returns immediately without the final flush.  The result is the
final writer state together with the returned error, if any. -/
def cmdImages (fmt : Fmt) (parse : String → Except String NamedRef)
    (quiet noTrunc showDigests : Bool) (images : List Image) :
    TW × Option String :=
  let w : TW := { buf := [], out := [] }
  let w := if ¬ quiet then w.writeLine (headerLine showDigests) else w
  match runImages fmt parse quiet noTrunc showDigests w images with
  | (w2, some e) => (w2, some e)
  | (w2, none) => (if ¬ quiet then w2.flush else w2, none)

/-- The rows quiet mode emits: one copy of the displayed id per
combined reference string, record by record in input order. -/
def quietRows (noTrunc : Bool) : List Image → List String
  | [] => []
  | image :: rest =>
    (reconcile image).map (fun _ => displayID noTrunc image.ID)
      ++ quietRows noTrunc rest

/-- A Go slice value into a backing array of strings: the array
contents, the start offset and the length (the capacity is the rest of
the backing array). -/
structure GoSlice where
  arr : List String
  off : Nat
  len : Nat
deriving DecidableEq

/-- The elements a Go slice makes visible. -/
def GoSlice.view (s : GoSlice) : List String :=
  (s.arr.drop s.off).take s.len

/-- Overwriting the elements of a backing array from position k on with
the given elements, as a Go copy into a slice of the array does. -/
def writeAt (a : List String) (k : Nat) (xs : List String) : List String :=
  a.take k ++ xs ++ a.drop (k + xs.length)

/-- Go append(s, xs...) as executed at line 86 of
src/api/client/images.go: if the backing array has room behind the
slice, the new elements are copied into it in place (mutating the
array beyond the slice's own view); otherwise a fresh array is
allocated.  The result is the state of the original backing array
after the call, together with the returned slice. -/
def goAppend (s : GoSlice) (xs : List String) : List String × GoSlice :=
  if s.off + s.len + xs.length ≤ s.arr.length then
    let arr := writeAt s.arr (s.off + s.len) xs
    (arr, { arr := arr, off := s.off, len := s.len + xs.length })
  else
    (s.arr, { arr := s.view ++ xs, off := 0, len := s.len + xs.length })

/-- Splitting a character list at every occurrence of the separator. -/
def splitOnChar (c : Char) : List Char → List (List Char)
  | [] => [[]]
  | a :: rest =>
    if a == c then [] :: splitOnChar c rest
    else
      match splitOnChar c rest with
      | [] => [[a]]
      | h :: t => (a :: h) :: t

/-- Modelled from the spec: the external reference parsing component
(reference.ParseNamed).  A string with an at sign splits into a name
and a digest, a string with a colon splits into a name and a tag, and
anything else is a bare repository name; an empty name or tag part is
a malformed reference and fails. -/
def parseNamedModel (s : String) : Except String NamedRef :=
  if s.data.any (fun c => c == '@') then
    match splitOnChar '@' s.data with
    | [name, dgst] =>
      if name.isEmpty then Except.error ("invalid reference format: " ++ s)
      else Except.ok { name := ⟨name⟩, kind := RefKind.digested ⟨dgst⟩ }
    | _ => Except.error ("invalid reference format: " ++ s)
  else if s.data.any (fun c => c == ':') then
    match splitOnChar ':' s.data with
    | [name, tg] =>
      if name.isEmpty || tg.isEmpty then
        Except.error ("invalid reference format: " ++ s)
      else Except.ok { name := ⟨name⟩, kind := RefKind.tagged ⟨tg⟩ }
    | _ => Except.error ("invalid reference format: " ++ s)
  else if s.data.isEmpty then
    Except.error "repository name must have at least one component"
  else
    Except.ok { name := s, kind := RefKind.bare }

instance instDecEqExcept {α β : Type} [DecidableEq α] [DecidableEq β] :
    DecidableEq (Except α β)
  | Except.error x, Except.error y =>
    if h : x = y then Decidable.isTrue (by rw [h])
    else Decidable.isFalse (fun hc => h (Except.error.inj hc))
  | Except.error _, Except.ok _ => Decidable.isFalse (fun hc => Except.noConfusion hc)
  | Except.ok _, Except.error _ => Decidable.isFalse (fun hc => Except.noConfusion hc)
  | Except.ok x, Except.ok y =>
    if h : x = y then Decidable.isTrue (by rw [h])
    else Decidable.isFalse (fun hc => h (Except.ok.inj hc))

/-- A concrete formatting environment, used to instantiate the
theorems on closed inputs. -/
def fmtDemo : Fmt :=
  { now := 0, humanDuration := fun _ => "d", humanSize := fun _ => "s" }

/-- A concrete record with a single well-formed tag. -/
def imgA : Image :=
  { ID := "abcdef", RepoTags := ["repo1:t1"], RepoDigests := [],
    Created := 0, Size := 0 }

/-- A concrete record whose only tag string is malformed. -/
def imgBad : Image :=
  { ID := "abc", RepoTags := ["bad:"], RepoDigests := [], Created := 0, Size := 0 }

/-- A concrete record with one well-formed tag followed by a malformed
one. -/
def imgCex : Image :=
  { ID := "abc123def456ab", RepoTags := ["busybox:latest", ":bad"],
    RepoDigests := [], Created := 0, Size := 0 }

end DockerImages

namespace DockerImages

/-! ### Helper lemmas -/

theorem data_append (a b : String) : (a ++ b).data = a.data ++ b.data := by
  cases a; cases b; rfl

theorem hasCellSep_append (a b : String) :
    hasCellSep (a ++ b) = (hasCellSep a || hasCellSep b) := by
  simp [hasCellSep, data_append, List.any_append]

theorem resolveRef_none (parse : String → Except String NamedRef) (s : String)
    (h : hasPrefixStr "<none>" s = true) :
    resolveRef parse s = Except.ok noneTriple := by
  simp [resolveRef, h, noneTriple]

theorem dangling_iff (tags digests : List String) :
    (tags.length == 1 && tags.getD 0 "" == "<none>:<none>"
      && digests.length == 1 && digests.getD 0 "" == "<none>@<none>") = true
    ↔ tags = ["<none>:<none>"] ∧ digests = ["<none>@<none>"] := by
  rcases tags with _ | ⟨a, _ | ⟨a2, tl⟩⟩ <;>
    rcases digests with _ | ⟨b, _ | ⟨b2, dl⟩⟩ <;>
      simp [List.getD]

theorem reconcile_dangling (image : Image)
    (h1 : image.RepoTags = ["<none>:<none>"])
    (h2 : image.RepoDigests = ["<none>@<none>"]) :
    reconcile image = ["<none>:<none>"] := by
  simp [reconcile, h1, h2]

theorem reconcile_not_dangling (image : Image)
    (h : ¬ (image.RepoTags = ["<none>:<none>"]
        ∧ image.RepoDigests = ["<none>@<none>"])) :
    reconcile image = image.RepoTags ++ image.RepoDigests := by
  have hb : ¬ ((image.RepoTags.length == 1
      && image.RepoTags.getD 0 "" == "<none>:<none>"
      && image.RepoDigests.length == 1
      && image.RepoDigests.getD 0 "" == "<none>@<none>") = true) :=
    fun hc => h ((dangling_iff _ _).mp hc)
  simp only [reconcile, if_neg hb]

/-! ### Claim C1 -/

/-- Claim C1: for every image record whose tag list is exactly the
singleton none-tag sentinel and whose digest list is exactly the
singleton none-digest sentinel, the reconciler discards the digest
list and emits exactly one triple, with repository, tag and digest all
equal to the none-sentinel display value. -/
theorem recordTriples_dangling_singleton
    (parse : String → Except String NamedRef) (image : Image)
    (htags : image.RepoTags = ["<none>:<none>"])
    (hdigests : image.RepoDigests = ["<none>@<none>"]) :
    recordTriples parse image = Except.ok [noneTriple] := by
  have hnp : resolveRef parse "<none>:<none>" = Except.ok noneTriple :=
    resolveRef_none parse _ (by decide)
  rw [recordTriples, reconcile_dangling image htags hdigests]
  simp [resolveAll, hnp]

/-- Concrete instance of the dangling-singleton collapse. -/
theorem recordTriples_dangling_singleton_witness :
    recordTriples parseNamedModel
      { ID := "abc", RepoTags := ["<none>:<none>"],
        RepoDigests := ["<none>@<none>"], Created := 0, Size := 0 }
      = Except.ok [noneTriple] :=
  recordTriples_dangling_singleton parseNamedModel _ rfl rfl

/-! ### Claim C7 -/

/-- Claim C7: for every reference string starting with the none
sentinel (by prefix, not only exact equality), the emitted triple has
all three fields equal to the none display value, and the external
parser is not consulted: the result is the same under any parser. -/
theorem none_sentinel_skips_parse
    (parse parse2 : String → Except String NamedRef) (s : String)
    (h : hasPrefixStr "<none>" s = true) :
    resolveRef parse s = Except.ok noneTriple ∧
    resolveRef parse s = resolveRef parse2 s :=
  ⟨resolveRef_none parse s h, by
    rw [resolveRef_none parse s h, resolveRef_none parse2 s h]⟩

/-- Concrete instance: a string that merely starts with the sentinel
is defaulted, identically under two different parsers. -/
theorem none_sentinel_skips_parse_witness :
    resolveRef parseNamedModel "<none>garbage" = Except.ok noneTriple ∧
    resolveRef parseNamedModel "<none>garbage"
      = resolveRef (fun _ => Except.error "boom") "<none>garbage" :=
  none_sentinel_skips_parse parseNamedModel (fun _ => Except.error "boom")
    "<none>garbage" (by decide)

/-! ### Claim C10 -/

/-- Claim C10: a reference string that does not start with the
sentinel and parses to a bare repository name (neither tagged nor
digested) yields a triple whose repository is the parsed name while
tag and digest stay at the none sentinel. -/
theorem bare_ref_triple (parse : String → Except String NamedRef)
    (s : String) (r : NamedRef)
    (hpre : hasPrefixStr "<none>" s = false)
    (hp : parse s = Except.ok r) (hb : r.kind = RefKind.bare) :
    resolveRef parse s
      = Except.ok { repo := r.name, tag := "<none>", digest := "<none>" } := by
  rcases r with ⟨nm, k⟩
  simp only at hb
  subst hb
  simp [resolveRef, hpre, hp]

/-- Concrete instance of the bare-repository case. -/
theorem bare_ref_triple_witness :
    resolveRef parseNamedModel "busybox"
      = Except.ok { repo := "busybox", tag := "<none>", digest := "<none>" } :=
  bare_ref_triple parseNamedModel "busybox"
    { name := "busybox", kind := RefKind.bare } (by decide) (by decide) rfl

/-! ### Claim C4 -/

/-- Claim C4: every triple the reconciler produces has at most one of
tag and digest away from the none sentinel: a tagged reference leaves
the digest at the default, a digested reference leaves the tag at the
default, and no triple has both populated. -/
theorem resolveRef_never_both (parse : String → Except String NamedRef)
    (s : String) (t : ReferenceTriple)
    (h : resolveRef parse s = Except.ok t) :
    (t.tag = "<none>" ∨ t.digest = "<none>") ∧
    (∀ r, parse s = Except.ok r → hasPrefixStr "<none>" s = false →
      (∀ tg, r.kind = RefKind.tagged tg → t.tag = tg ∧ t.digest = "<none>") ∧
      (∀ d, r.kind = RefKind.digested d → t.digest = d ∧ t.tag = "<none>")) := by
  cases hp : hasPrefixStr "<none>" s with
  | true =>
    rw [resolveRef_none parse s hp] at h
    obtain rfl := Except.ok.inj h
    exact ⟨Or.inl rfl, fun r _ hfalse => Bool.noConfusion hfalse⟩
  | false =>
    cases hps : parse s with
    | error e =>
      exfalso
      simp [resolveRef, hp, hps] at h
    | ok r =>
      rcases r with ⟨nm, k⟩
      cases k with
      | bare =>
        have hres : resolveRef parse s
            = Except.ok { repo := nm, tag := "<none>", digest := "<none>" } := by
          simp [resolveRef, hp, hps]
        rw [hres] at h
        obtain rfl := Except.ok.inj h
        refine ⟨Or.inl rfl, fun r2 hr2 _ => ?_⟩
        obtain rfl := Except.ok.inj hr2
        exact ⟨fun tg htg => (nomatch htg), fun d hd => nomatch hd⟩
      | tagged tg =>
        have hres : resolveRef parse s
            = Except.ok { repo := nm, tag := tg, digest := "<none>" } := by
          simp [resolveRef, hp, hps]
        rw [hres] at h
        obtain rfl := Except.ok.inj h
        refine ⟨Or.inr rfl, fun r2 hr2 _ => ?_⟩
        obtain rfl := Except.ok.inj hr2
        refine ⟨fun tg2 htg => ?_, fun d hd => (nomatch hd)⟩
        cases htg
        exact ⟨rfl, rfl⟩
      | digested d =>
        have hres : resolveRef parse s
            = Except.ok { repo := nm, tag := "<none>", digest := d } := by
          simp [resolveRef, hp, hps]
        rw [hres] at h
        obtain rfl := Except.ok.inj h
        refine ⟨Or.inl rfl, fun r2 hr2 _ => ?_⟩
        obtain rfl := Except.ok.inj hr2
        refine ⟨fun tg htg => (nomatch htg), fun d2 hd => ?_⟩
        cases hd
        exact ⟨rfl, rfl⟩

/-- Concrete instance: a tagged reference leaves the digest field at
the none default. -/
theorem resolveRef_never_both_witness :
    ((ReferenceTriple.tag
        { repo := "busybox", tag := "latest", digest := "<none>" } = "<none>"
      ∨ ReferenceTriple.digest
        { repo := "busybox", tag := "latest", digest := "<none>" } = "<none>")) :=
  (resolveRef_never_both parseNamedModel "busybox:latest"
    { repo := "busybox", tag := "latest", digest := "<none>" } (by decide)).1

end DockerImages

namespace DockerImages

/-! ### Claim C2 -/

theorem resolveRef_parse_ok (parse : String → Except String NamedRef)
    (s : String) (nm : String) (k : RefKind)
    (hp : hasPrefixStr "<none>" s = false)
    (hr : parse s = Except.ok { name := nm, kind := k }) :
    resolveRef parse s = Except.ok
      (match k with
        | RefKind.bare => { repo := nm, tag := "<none>", digest := "<none>" }
        | RefKind.tagged tg => { repo := nm, tag := tg, digest := "<none>" }
        | RefKind.digested d => { repo := nm, tag := "<none>", digest := d }) := by
  cases k <;> simp [resolveRef, hp, hr]

theorem resolveRef_isOk (parse : String → Except String NamedRef) (s : String)
    (h : hasPrefixStr "<none>" s = true ∨ ∃ r, parse s = Except.ok r) :
    ∃ t, resolveRef parse s = Except.ok t := by
  rcases h with h | ⟨r, hr⟩
  · exact ⟨noneTriple, resolveRef_none parse s h⟩
  · cases hp : hasPrefixStr "<none>" s with
    | true => exact ⟨noneTriple, resolveRef_none parse s hp⟩
    | false =>
      rcases r with ⟨nm, k⟩
      exact ⟨_, resolveRef_parse_ok parse s nm k hp hr⟩

theorem resolveAll_all_ok (parse : String → Except String NamedRef)
    (l : List String)
    (h : ∀ s ∈ l, ∃ t, resolveRef parse s = Except.ok t) :
    resolveAll parse l
      = Except.ok (l.map (fun s => ((resolveRef parse s).toOption.getD noneTriple))) := by
  induction l with
  | nil => rfl
  | cons a l ih =>
    obtain ⟨t, ht⟩ := h a (List.mem_cons_self a l)
    have hrest := ih (fun s hs => h s (List.mem_cons_of_mem a hs))
    simp [resolveAll, ht, hrest, Except.toOption]

/-- Claim C2: for a record that is not the dangling singleton case and
whose reference strings all start with the sentinel or parse, the
reconciler emits exactly one triple per string of the concatenated
tag-then-digest list, in that order (N + M triples in total), each
triple being the resolution of its string. -/
theorem recordTriples_count_order (parse : String → Except String NamedRef)
    (image : Image)
    (hnd : ¬ (image.RepoTags = ["<none>:<none>"]
        ∧ image.RepoDigests = ["<none>@<none>"]))
    (hok : ∀ s ∈ image.RepoTags ++ image.RepoDigests,
      hasPrefixStr "<none>" s = true ∨ ∃ r, parse s = Except.ok r) :
    recordTriples parse image
      = Except.ok ((image.RepoTags ++ image.RepoDigests).map
          (fun s => ((resolveRef parse s).toOption.getD noneTriple))) ∧
    ((image.RepoTags ++ image.RepoDigests).map
        (fun s => ((resolveRef parse s).toOption.getD noneTriple))).length
      = image.RepoTags.length + image.RepoDigests.length := by
  constructor
  · rw [recordTriples, reconcile_not_dangling image hnd]
    exact resolveAll_all_ok parse _ (fun s hs => resolveRef_isOk parse s (hok s hs))
  · simp

/-- Concrete instance: one tag and one digest give two triples, the
tag triple first. -/
theorem recordTriples_count_order_witness :
    recordTriples parseNamedModel
      { ID := "abc", RepoTags := ["busybox:latest"],
        RepoDigests := ["busybox@sha256:aa"], Created := 0, Size := 0 }
      = Except.ok (((["busybox:latest"] : List String) ++ ["busybox@sha256:aa"]).map
          (fun s => ((resolveRef parseNamedModel s).toOption.getD noneTriple))) ∧
    ((((["busybox:latest"] : List String) ++ ["busybox@sha256:aa"])).map
        (fun s => ((resolveRef parseNamedModel s).toOption.getD noneTriple))).length
      = (["busybox:latest"] : List String).length
        + (["busybox@sha256:aa"] : List String).length :=
  recordTriples_count_order parseNamedModel
    { ID := "abc", RepoTags := ["busybox:latest"],
      RepoDigests := ["busybox@sha256:aa"], Created := 0, Size := 0 }
    (by decide)
    (by
      intro s hs
      rcases List.mem_append.mp hs with hs | hs
      · rcases List.mem_singleton.mp hs with rfl
        exact Or.inr ⟨{ name := "busybox", kind := RefKind.tagged "latest" }, by decide⟩
      · rcases List.mem_singleton.mp hs with rfl
        exact Or.inr ⟨{ name := "busybox", kind := RefKind.digested "sha256:aa" },
          by decide⟩)

/-! ### Claim C9 -/

/-- Claim C9: the listing never mutates the input image records.  The
only write the reconciliation performs is the Go append of line 86,
which may copy the digest strings into the spare capacity of the tag
slice's backing array; the record's own tag list (the view of that
slice) is unchanged by the write, and the combined list is exactly the
tag view followed by the appended digest strings. -/
theorem goAppend_preserves_views (s : GoSlice) (xs : List String)
    (hwf : s.off + s.len ≤ s.arr.length) :
    GoSlice.view { arr := (goAppend s xs).1, off := s.off, len := s.len } = s.view ∧
    (goAppend s xs).2.view = s.view ++ xs := by
  rcases s with ⟨a, off, len⟩
  simp only at hwf
  by_cases hc : off + len + xs.length ≤ a.length
  · simp only [goAppend, writeAt, if_pos hc, GoSlice.view]
    have hK : off + len ≤ a.length := le_trans (Nat.le_add_right _ _) hc
    have h1 : off ≤ (a.take (off + len)).length := by
      rw [List.length_take_of_le hK]
      omega
    have e1 : off + len - off = len := by omega
    have hlenA : ((a.drop off).take len).length = len := by
      rw [List.length_take, List.length_drop]
      omega
    constructor
    · rw [List.append_assoc, List.drop_append_of_le_length h1, List.drop_take, e1,
        List.take_append_of_le_length (le_of_eq hlenA.symm),
        List.take_take, Nat.min_self]
    · rw [List.append_assoc, List.drop_append_of_le_length h1, List.drop_take, e1,
        List.take_append_eq_append_take, hlenA,
        List.take_of_length_le (le_trans (le_of_eq hlenA) (Nat.le_add_right len xs.length))]
      have e2 : len + xs.length - len = xs.length := by omega
      rw [e2, List.take_left]
  · simp only [goAppend, writeAt, if_neg hc, GoSlice.view]
    have hlenV : ((a.drop off).take len).length = len := by
      rw [List.length_take, List.length_drop]
      omega
    constructor
    · trivial
    · rw [List.drop_zero]
      exact List.take_of_length_le (by simp [hlenV])

/-- Concrete instance: appending one digest string into the spare
capacity of the tag slice's backing array leaves the visible tag list
unchanged and yields the concatenated view. -/
theorem goAppend_preserves_views_witness :
    GoSlice.view
      { arr := (goAppend { arr := ["a", "b", "c", "d"], off := 1, len := 2 } ["x"]).1,
        off := 1, len := 2 }
      = GoSlice.view { arr := ["a", "b", "c", "d"], off := 1, len := 2 } ∧
    (goAppend { arr := ["a", "b", "c", "d"], off := 1, len := 2 } ["x"]).2.view
      = GoSlice.view { arr := ["a", "b", "c", "d"], off := 1, len := 2 } ++ ["x"] :=
  goAppend_preserves_views { arr := ["a", "b", "c", "d"], off := 1, len := 2 }
    ["x"] (by decide)

end DockerImages

namespace DockerImages

/-! ### Tabwriter and renderer lemmas -/

theorem lines_writeLine (w : TW) (l : String) :
    (w.writeLine l).lines = w.lines ++ [l] := by
  unfold TW.writeLine TW.lines
  split <;> simp

theorem lines_flush (w : TW) : w.flush.lines = w.lines := by
  simp [TW.flush, TW.lines]

theorem out_writeLine_sep (w : TW) (l : String) (h : hasCellSep l = true) :
    (w.writeLine l).out = w.out := by
  simp [TW.writeLine, h]

theorem writeLine_nosep (w : TW) (l : String) (h : hasCellSep l = false)
    (hb : w.buf = []) :
    w.writeLine l = { buf := [], out := w.out ++ [l] } := by
  simp [TW.writeLine, h, hb]

theorem renderLine_quiet (fmt : Fmt) (sd : Bool) (ID : String)
    (c sz : Int) (t : ReferenceTriple) :
    renderLine fmt true sd ID c sz t = ID := by
  simp [renderLine]

theorem renderLine_nonquiet_sep (fmt : Fmt) (sd : Bool) (ID : String)
    (c sz : Int) (t : ReferenceTriple) :
    hasCellSep (renderLine fmt false sd ID c sz t) = true := by
  cases sd <;>
    simp [renderLine, hasCellSep_append,
      show hasCellSep "\t" = true from by decide,
      show hasCellSep " ago\t" = true from by decide]

theorem hasCellSep_headerLine (sd : Bool) : hasCellSep (headerLine sd) = true := by
  cases sd <;> decide

theorem cmdImages_quiet_eq (fmt : Fmt) (parse : String → Except String NamedRef)
    (nt sd : Bool) (images : List Image) :
    cmdImages fmt parse true nt sd images
      = runImages fmt parse true nt sd { buf := [], out := [] } images := by
  simp only [cmdImages, not_true, if_false]
  cases h : runImages fmt parse true nt sd { buf := [], out := [] } images with
  | mk w2 res2 => cases res2 <;> rfl

theorem cmdImages_false_eq (fmt : Fmt) (parse : String → Except String NamedRef)
    (nt sd : Bool) (images : List Image) :
    cmdImages fmt parse false nt sd images
      = (match runImages fmt parse false nt sd
            (TW.writeLine { buf := [], out := [] } (headerLine sd)) images with
          | (w2, some e) => (w2, some e)
          | (w2, none) => (w2.flush, none)) := by
  simp only [cmdImages, Bool.false_eq_true, not_false_eq_true, if_true]

theorem processRefs_lines (fmt : Fmt) (parse : String → Except String NamedRef)
    (q sd : Bool) (ID : String) (c sz : Int) (refs : List String) :
    ∀ (w w2 : TW) (res : Option String),
      processRefs fmt parse q sd ID c sz w refs = (w2, res) →
      (∃ new, w2.lines = w.lines ++ new ∧
        ∀ l ∈ new, ∃ s ∈ refs, ∃ t, resolveRef parse s = Except.ok t ∧
          l = renderLine fmt q sd ID c sz t) ∧
      (∀ e, res = some e → ∃ s ∈ refs, resolveRef parse s = Except.error e) := by
  induction refs with
  | nil =>
    intro w w2 res h
    simp only [processRefs] at h
    injection h with h1 h2
    subst h1
    subst h2
    exact ⟨⟨[], by simp, by simp⟩, fun e he => (nomatch he)⟩
  | cons s rest ih =>
    intro w w2 res h
    cases hr : resolveRef parse s with
    | error e =>
      simp only [processRefs, hr] at h
      injection h with h1 h2
      subst h1
      subst h2
      refine ⟨⟨[], by simp, by simp⟩, fun e2 he2 => ?_⟩
      injection he2 with he3
      subst he3
      exact ⟨s, List.mem_cons_self s rest, hr⟩
    | ok t =>
      simp only [processRefs, hr] at h
      obtain ⟨⟨new, hl, hnew⟩, herr⟩ := ih _ _ _ h
      refine ⟨⟨renderLine fmt q sd ID c sz t :: new, ?_, ?_⟩, fun e he => ?_⟩
      · rw [hl, lines_writeLine]
        simp
      · intro l hlmem
        rcases List.mem_cons.mp hlmem with rfl | hlmem
        · exact ⟨s, List.mem_cons_self s rest, t, hr, rfl⟩
        · obtain ⟨s2, hs2, t2, ht2, rfl⟩ := hnew l hlmem
          exact ⟨s2, List.mem_cons_of_mem s hs2, t2, ht2, rfl⟩
      · obtain ⟨s2, hs2, he2⟩ := herr e he
        exact ⟨s2, List.mem_cons_of_mem s hs2, he2⟩

theorem runImages_lines (fmt : Fmt) (parse : String → Except String NamedRef)
    (q nt sd : Bool) (images : List Image) :
    ∀ (w w2 : TW) (res : Option String),
      runImages fmt parse q nt sd w images = (w2, res) →
      (∃ new, w2.lines = w.lines ++ new ∧
        ∀ l ∈ new, ∃ image ∈ images, ∃ s ∈ reconcile image, ∃ t,
          resolveRef parse s = Except.ok t ∧
          l = renderLine fmt q sd (displayID nt image.ID)
                image.Created image.Size t) ∧
      (∀ e, res = some e → ∃ image ∈ images, ∃ s ∈ reconcile image,
        resolveRef parse s = Except.error e) := by
  induction images with
  | nil =>
    intro w w2 res h
    simp only [runImages] at h
    injection h with h1 h2
    subst h1
    subst h2
    exact ⟨⟨[], by simp, by simp⟩, fun e he => (nomatch he)⟩
  | cons image rest ih =>
    intro w w2 res h
    cases hp : processImage fmt parse q nt sd w image with
    | mk w3 res3 =>
      simp only [runImages, hp] at h
      have hp2 : processRefs fmt parse q sd (displayID nt image.ID)
          image.Created image.Size w (reconcile image) = (w3, res3) := by
        simpa [processImage] using hp
      obtain ⟨⟨new1, hl1, hnew1⟩, herr1⟩ :=
        processRefs_lines fmt parse q sd (displayID nt image.ID)
          image.Created image.Size (reconcile image) _ _ _ hp2
      cases res3 with
      | none =>
        obtain ⟨⟨new2, hl2, hnew2⟩, herr2⟩ := ih _ _ _ h
        refine ⟨⟨new1 ++ new2, ?_, ?_⟩, fun e he => ?_⟩
        · rw [hl2, hl1, List.append_assoc]
        · intro l hl
          rcases List.mem_append.mp hl with hl | hl
          · obtain ⟨s, hs, t, ht, rfl⟩ := hnew1 l hl
            exact ⟨image, List.mem_cons_self image rest, s, hs, t, ht, rfl⟩
          · obtain ⟨im2, him2, s, hs, t, ht, rfl⟩ := hnew2 l hl
            exact ⟨im2, List.mem_cons_of_mem image him2, s, hs, t, ht, rfl⟩
        · obtain ⟨im2, him2, s, hs, hse⟩ := herr2 e he
          exact ⟨im2, List.mem_cons_of_mem image him2, s, hs, hse⟩
      | some e3 =>
        injection h with h1 h2
        subst h1
        subst h2
        refine ⟨⟨new1, hl1, fun l hl => ?_⟩, fun e he => ?_⟩
        · obtain ⟨s, hs, t, ht, rfl⟩ := hnew1 l hl
          exact ⟨image, List.mem_cons_self image rest, s, hs, t, ht, rfl⟩
        · injection he with he2
          subst he2
          obtain ⟨s, hs, hse⟩ := herr1 e3 rfl
          exact ⟨image, List.mem_cons_self image rest, s, hs, hse⟩

end DockerImages

namespace DockerImages

/-! ### Quiet-mode and error-mode lemmas -/

theorem quiet_lines_are_ids (fmt : Fmt) (parse : String → Except String NamedRef)
    (nt sd : Bool) (images : List Image) (w : TW) (res : Option String)
    (h : cmdImages fmt parse true nt sd images = (w, res)) :
    ∀ l ∈ w.lines, ∃ image ∈ images, l = displayID nt image.ID := by
  rw [cmdImages_quiet_eq] at h
  obtain ⟨⟨new, hl, hnew⟩, _⟩ :=
    runImages_lines fmt parse true nt sd images _ _ _ h
  intro l hlm
  rw [hl] at hlm
  simp only [TW.lines, List.nil_append, List.append_nil] at hlm
  obtain ⟨image, him, s, hs, t, ht, rfl⟩ := hnew l hlm
  exact ⟨image, him, renderLine_quiet fmt sd _ _ _ t⟩

theorem processRefs_quiet_out (fmt : Fmt) (parse : String → Except String NamedRef)
    (sd : Bool) (ID : String) (c sz : Int)
    (hID : hasCellSep ID = false) (refs : List String) :
    ∀ (w w2 : TW), w.buf = [] →
      processRefs fmt parse true sd ID c sz w refs = (w2, none) →
      w2.buf = [] ∧ w2.out = w.out ++ refs.map (fun _ => ID) := by
  induction refs with
  | nil =>
    intro w w2 hb h
    simp only [processRefs] at h
    injection h with h1 h2
    subst h1
    exact ⟨hb, by simp⟩
  | cons s rest ih =>
    intro w w2 hb h
    cases hr : resolveRef parse s with
    | error e =>
      simp only [processRefs, hr] at h
      injection h with h1 h2
      exact (nomatch h2)
    | ok t =>
      simp only [processRefs, hr] at h
      rw [renderLine_quiet] at h
      rw [writeLine_nosep w ID hID hb] at h
      obtain ⟨hb2, hout⟩ := ih _ _ rfl h
      refine ⟨hb2, ?_⟩
      rw [hout]
      simp

theorem runImages_quiet_out (fmt : Fmt) (parse : String → Except String NamedRef)
    (nt sd : Bool) (images : List Image) :
    ∀ (w w2 : TW), w.buf = [] →
      (∀ image ∈ images, hasCellSep (displayID nt image.ID) = false) →
      runImages fmt parse true nt sd w images = (w2, none) →
      w2.buf = [] ∧ w2.out = w.out ++ quietRows nt images := by
  induction images with
  | nil =>
    intro w w2 hb _ h
    simp only [runImages] at h
    injection h with h1 h2
    subst h1
    exact ⟨hb, by simp [quietRows]⟩
  | cons image rest ih =>
    intro w w2 hb hids h
    cases hp : processImage fmt parse true nt sd w image with
    | mk w3 res3 =>
      simp only [runImages, hp] at h
      cases res3 with
      | some e3 =>
        injection h with h1 h2
        exact (nomatch h2)
      | none =>
        have hp2 : processRefs fmt parse true sd (displayID nt image.ID)
            image.Created image.Size w (reconcile image) = (w3, none) := by
          simpa [processImage] using hp
        obtain ⟨hb3, hout3⟩ := processRefs_quiet_out fmt parse sd _
          image.Created image.Size (hids image (List.mem_cons_self image rest))
          (reconcile image) w w3 hb hp2
        obtain ⟨hb2, hout2⟩ := ih _ _ hb3
          (fun im hm => hids im (List.mem_cons_of_mem image hm)) h
        refine ⟨hb2, ?_⟩
        rw [hout2, hout3]
        simp [quietRows]

theorem processRefs_out_nonquiet (fmt : Fmt)
    (parse : String → Except String NamedRef) (sd : Bool) (ID : String)
    (c sz : Int) (refs : List String) :
    ∀ (w w2 : TW) (res : Option String),
      processRefs fmt parse false sd ID c sz w refs = (w2, res) →
      w2.out = w.out := by
  induction refs with
  | nil =>
    intro w w2 res h
    simp only [processRefs] at h
    injection h with h1 h2
    subst h1
    rfl
  | cons s rest ih =>
    intro w w2 res h
    cases hr : resolveRef parse s with
    | error e =>
      simp only [processRefs, hr] at h
      injection h with h1 h2
      subst h1
      rfl
    | ok t =>
      simp only [processRefs, hr] at h
      have h2 := ih _ _ _ h
      rw [h2, out_writeLine_sep _ _ (renderLine_nonquiet_sep fmt sd ID c sz t)]

theorem runImages_out_nonquiet (fmt : Fmt)
    (parse : String → Except String NamedRef) (nt sd : Bool)
    (images : List Image) :
    ∀ (w w2 : TW) (res : Option String),
      runImages fmt parse false nt sd w images = (w2, res) → w2.out = w.out := by
  induction images with
  | nil =>
    intro w w2 res h
    simp only [runImages] at h
    injection h with h1 h2
    subst h1
    rfl
  | cons image rest ih =>
    intro w w2 res h
    cases hp : processImage fmt parse false nt sd w image with
    | mk w3 res3 =>
      simp only [runImages, hp] at h
      have hp2 : processRefs fmt parse false sd (displayID nt image.ID)
          image.Created image.Size w (reconcile image) = (w3, res3) := by
        simpa [processImage] using hp
      have h3 : w3.out = w.out :=
        processRefs_out_nonquiet fmt parse sd _ _ _ (reconcile image) w w3 res3 hp2
      cases res3 with
      | none =>
        have h4 := ih _ _ _ h
        rw [h4, h3]
      | some e3 =>
        injection h with h1 h2
        subst h1
        exact h3

end DockerImages

namespace DockerImages

/-! ### Claim C3 -/

/-- Claim C3 counterexample: in quiet mode, a record whose first tag
resolves and whose second tag is malformed makes the call fail, yet
the first quiet row (a line with no tab) has already been flushed
through the tabwriter and is visible on the user stream, so the
failing listing does not leave zero visible rows. -/
theorem listing_error_visible_rows_cex :
    (cmdImages fmtDemo parseNamedModel true true false [imgCex]).2
      = some "invalid reference format: :bad" ∧
    (cmdImages fmtDemo parseNamedModel true true false [imgCex]).1.out
      = ["abc123def456ab"] := by decide

/-- Claim C3 (amended): a reference-string parse failure aborts the
whole listing and the parse error is propagated verbatim; when quiet
is false, zero rows are visible on the user stream (the whole buffered
table, header included, is discarded unflushed).  In quiet mode, rows
written before the failure may already be visible, because a quiet row
has a single cell and is flushed through immediately. -/
theorem listing_error_nonquiet_no_rows (fmt : Fmt)
    (parse : String → Except String NamedRef) (noTrunc showDigests : Bool)
    (images : List Image) (w : TW) (e : String)
    (h : cmdImages fmt parse false noTrunc showDigests images = (w, some e)) :
    w.out = [] ∧ ∃ image ∈ images, ∃ s ∈ reconcile image,
      resolveRef parse s = Except.error e := by
  rw [cmdImages_false_eq] at h
  cases hrun : runImages fmt parse false noTrunc showDigests
      (TW.writeLine { buf := [], out := [] } (headerLine showDigests)) images with
  | mk w3 res3 =>
    rw [hrun] at h
    cases res3 with
    | none =>
      injection h with h1 h2
      exact (nomatch h2)
    | some e3 =>
      injection h with h1 h2
      subst h1
      injection h2 with h4
      subst h4
      constructor
      · have hout := runImages_out_nonquiet fmt parse noTrunc showDigests
          images _ _ _ hrun
        rw [hout, out_writeLine_sep _ _ (hasCellSep_headerLine showDigests)]
      · obtain ⟨_, herr⟩ := runImages_lines fmt parse false noTrunc showDigests
          images _ _ _ hrun
        exact herr e3 rfl

/-- Concrete instance of the amended claim: a malformed tag aborts the
non-quiet listing with the parse error and nothing visible. -/
theorem listing_error_nonquiet_no_rows_witness :
    TW.out { buf := ["REPOSITORY\tTAG\tIMAGE ID\tCREATED\tSIZE"], out := [] } = [] ∧
    ∃ image ∈ [imgBad], ∃ s ∈ reconcile image,
      resolveRef parseNamedModel s
        = Except.error "invalid reference format: bad:" :=
  listing_error_nonquiet_no_rows fmtDemo parseNamedModel false false [imgBad]
    { buf := ["REPOSITORY\tTAG\tIMAGE ID\tCREATED\tSIZE"], out := [] }
    "invalid reference format: bad:" (by decide)

/-! ### Claim C5 -/

/-- Claim C5: in quiet mode every row is written through the tabwriter
unbuffered-equivalent: a quiet row is a single cell, so the writer
flushes it immediately, and after a successful call every quiet row is
on the user-visible stream with nothing left buffered, although the
final flush is skipped when quiet.  (Image ids are assumed to contain
no cell separator, as content-addressed identifiers do not.) -/
theorem quiet_rows_visible (fmt : Fmt) (parse : String → Except String NamedRef)
    (noTrunc showDigests : Bool) (images : List Image) (w : TW)
    (hids : ∀ image ∈ images, hasCellSep (displayID noTrunc image.ID) = false)
    (h : cmdImages fmt parse true noTrunc showDigests images = (w, none)) :
    w.buf = [] ∧ w.out = quietRows noTrunc images := by
  rw [cmdImages_quiet_eq] at h
  have h2 := runImages_quiet_out fmt parse noTrunc showDigests images
    { buf := [], out := [] } w rfl hids h
  simpa using h2

/-- Concrete instance: one record, quiet mode, the single id row is
visible on the user stream with the buffer empty. -/
theorem quiet_rows_visible_witness :
    TW.buf { buf := [], out := ["abcdef"] } = [] ∧
    TW.out { buf := [], out := ["abcdef"] } = quietRows true [imgA] :=
  quiet_rows_visible fmtDemo parseNamedModel true false [imgA]
    { buf := [], out := ["abcdef"] } (by decide) (by decide)

/-! ### Claim C6 -/

/-- Claim C6: in quiet mode every emitted row is exactly the (possibly
truncated) image id of one of the records and nothing else, whatever
the value of showDigests. -/
theorem quiet_rows_only_id (fmt : Fmt) (parse : String → Except String NamedRef)
    (noTrunc showDigests : Bool) (images : List Image) (w : TW)
    (res : Option String)
    (h : cmdImages fmt parse true noTrunc showDigests images = (w, res)) :
    ∀ line ∈ w.out ++ w.buf, ∃ image ∈ images,
      line = displayID noTrunc image.ID :=
  quiet_lines_are_ids fmt parse noTrunc showDigests images w res h

/-- Concrete instance: the one emitted quiet row is the record's id. -/
theorem quiet_rows_only_id_witness :
    ∃ image ∈ [imgA], "abcdef" = displayID true image.ID :=
  quiet_rows_only_id fmtDemo parseNamedModel true false [imgA]
    { buf := [], out := ["abcdef"] } none (by decide) "abcdef" (by decide)

/-! ### Claim C8 -/

/-- Claim C8: the header line is emitted exactly once per listing,
before any row, exactly when quiet is false (in quiet mode every line
is an id row); with showDigests the header has the six column names,
otherwise the five. -/
theorem header_once_iff_not_quiet (fmt : Fmt)
    (parse : String → Except String NamedRef)
    (quiet noTrunc showDigests : Bool) (images : List Image) (w : TW)
    (res : Option String)
    (h : cmdImages fmt parse quiet noTrunc showDigests images = (w, res)) :
    (quiet = false →
      ∃ rows, w.out ++ w.buf = headerLine showDigests :: rows ∧
        ∀ l ∈ rows, ∃ image ∈ images, ∃ t, l = renderLine fmt false showDigests
          (displayID noTrunc image.ID) image.Created image.Size t) ∧
    (quiet = true → ∀ l ∈ w.out ++ w.buf, ∃ image ∈ images,
      l = displayID noTrunc image.ID) ∧
    headerLine true = "REPOSITORY\tTAG\tDIGEST\tIMAGE ID\tCREATED\tSIZE" ∧
    headerLine false = "REPOSITORY\tTAG\tIMAGE ID\tCREATED\tSIZE" := by
  refine ⟨?_, ?_, rfl, rfl⟩
  · intro hq
    subst hq
    rw [cmdImages_false_eq] at h
    cases hrun : runImages fmt parse false noTrunc showDigests
        (TW.writeLine { buf := [], out := [] } (headerLine showDigests)) images with
    | mk w3 res3 =>
      rw [hrun] at h
      obtain ⟨⟨new, hl, hnew⟩, _⟩ := runImages_lines fmt parse false noTrunc
        showDigests images _ _ _ hrun
      have hl0 : (TW.writeLine { buf := [], out := [] }
          (headerLine showDigests)).lines = [headerLine showDigests] := by
        rw [lines_writeLine]
        rfl
      have hw3 : w3.lines = headerLine showDigests :: new := by
        rw [hl, hl0]
        rfl
      have hrows : ∀ l ∈ new, ∃ image ∈ images, ∃ t,
          l = renderLine fmt false showDigests (displayID noTrunc image.ID)
            image.Created image.Size t := by
        intro l hl2
        obtain ⟨image, him, s, hs, t, ht, rfl⟩ := hnew l hl2
        exact ⟨image, him, t, rfl⟩
      cases res3 with
      | some e3 =>
        injection h with h1 h2
        subst h1
        exact ⟨new, hw3, hrows⟩
      | none =>
        injection h with h1 h2
        subst h1
        exact ⟨new, (lines_flush w3).trans hw3, hrows⟩
  · intro hq
    subst hq
    exact quiet_lines_are_ids fmt parse noTrunc showDigests images w res h

/-- Concrete instance: one record, non-quiet five-column mode, header
first and exactly one rendered row after it. -/
theorem header_once_iff_not_quiet_witness :
    ∃ rows,
      TW.out { buf := [],
               out := ["REPOSITORY\tTAG\tIMAGE ID\tCREATED\tSIZE",
                 "repo1\tt1\tabcdef\td ago\ts"] }
        ++ TW.buf { buf := [],
                    out := ["REPOSITORY\tTAG\tIMAGE ID\tCREATED\tSIZE",
                      "repo1\tt1\tabcdef\td ago\ts"] }
        = headerLine false :: rows ∧
      ∀ l ∈ rows, ∃ image ∈ [imgA], ∃ t, l = renderLine fmtDemo false false
        (displayID true image.ID) image.Created image.Size t :=
  (header_once_iff_not_quiet fmtDemo parseNamedModel false true false [imgA]
    { buf := [],
      out := ["REPOSITORY\tTAG\tIMAGE ID\tCREATED\tSIZE",
        "repo1\tt1\tabcdef\td ago\ts"] } none (by decide)).1 rfl

end DockerImages
